import Mathlib

/-!
Shallow embedding of the availability aggregation and booking core of the
`shady` booking service (backend/src/services/AvailabilityService.ts,
BookingService.ts, GoogleCalendarService.ts).

Conventions of the embedding:
* Instants are milliseconds since the Unix epoch, as `Int` (JS `Date.getTime()`).
* A rule's `"HH:mm"` time string is modelled after the source has split it into
  its two numeric components (`startTime.split(':').map(Number)` at
  AvailabilityService.ts line 628), i.e. as a pair of numbers `HM`.
* Database query results are modelled as list filters over an explicit list
  state; external I/O (Google Calendar) is a parameter of each function.
* JS `Date` local-time accessors (`getDay`) depend on the process timezone;
  they are modelled with an explicit fixed timezone offset in milliseconds
  (JS local time = UTC instant + offset).
-/

namespace Shady

/-- A time interval `{start, end}` (`end` is a Lean keyword, so the upper
endpoint is called `stop`). Used for candidate slots and busy intervals. -/
structure Ivl where
  start : Int
  stop : Int
deriving DecidableEq, Repr

/-- A wall-clock time of day, the two numbers obtained from splitting an
`"HH:mm"` rule time at `:` (AvailabilityService.ts lines 628-629). -/
structure HM where
  hour : Int
  minute : Int
deriving DecidableEq, Repr

/-- Minutes after midnight denoted by an `"HH:mm"` time. -/
def HM.toMinutes (t : HM) : Int := t.hour * 60 + t.minute

/-- Milliseconds after UTC midnight denoted by an `"HH:mm"` time; matches
`Date.UTC(y, m, d, hour, minute, 0, 0)` relative to the day's UTC midnight
(JS `Date.UTC` rolls overflowing fields over exactly like this product). -/
def HM.toMs (t : HM) : Int := t.toMinutes * 60000

/-- Milliseconds in one day. -/
def msPerDay : Int := 86400000

/-- UTC midnight of the UTC calendar day containing instant `t`: what
`Date.UTC(d.getUTCFullYear(), d.getUTCMonth(), d.getUTCDate(), ...)` rebuilds
(AvailabilityService.ts lines 632-651). -/
def utcMidnight (t : Int) : Int := msPerDay * t.fdiv msPerDay

/-- The UTC calendar day of instant `t`, counted as days since the epoch.
Models the `YYYY-MM-DD` prefix of `toISOString()`: two instants have the same
ISO date prefix iff they have the same epoch day, and lexicographic order of
the ISO date strings is the numeric order of the epoch days. -/
def epochDay (t : Int) : Int := t.fdiv msPerDay

/-- Day of week (0 = Sunday .. 6 = Saturday) of instant `t` as seen by a JS
`Date` in a timezone whose fixed offset from UTC is `offMs` milliseconds
(local time = UTC + offset). January 1 1970 was a Thursday (= 4).
`getUTCDay()` is `dayOfWeek t 0`; `getDay()` is `dayOfWeek t offMs` for the
process timezone. -/
def dayOfWeek (t : Int) (offMs : Int) : Int := ((t + offMs).fdiv msPerDay + 4).emod 7

/-- AvailabilityService.timesOverlap (lines 683-690):
`start1 < end2 && end1 > start2`. -/
def timesOverlap (start1 end1 start2 end2 : Int) : Bool :=
  decide (start1 < end2) && decide (end1 > start2)

/-- The slot filter of getAvailableSlots (AvailabilityService.ts lines 177-182):
keep a candidate slot iff, after padding its start by `-bufferMinutes` and its
end by `+bufferMinutes`, it overlaps no busy interval. -/
def filterAvailableSlots (bufferMinutes : Int) (busyTimes : List Ivl)
    (potentialSlots : List Ivl) : List Ivl :=
  potentialSlots.filter fun slot =>
    let slotStart := slot.start - bufferMinutes * 60000
    let slotEnd := slot.stop + bufferMinutes * 60000
    ! busyTimes.any fun busy => timesOverlap slotStart slotEnd busy.start busy.stop

/-- The slot-generation loop of generateSlotsForDay (AvailabilityService.ts
lines 656-670): starting at `slotStart`, while `slotStart + durMs <= dayEnd`,
emit the slot `[slotStart, slotStart + durMs)` provided
`slotStart > now + 60000` (the 1-minute future guard, line 661), then advance
by `durMs`. The source loop does not terminate for `durMs <= 0` (the slot
start would never pass `dayEnd`), so the model returns `[]` there; every claim
about it assumes a positive duration. -/
def genLoop (slotStart dayEnd durMs now : Int) : List Ivl :=
  if h : 0 < durMs ∧ slotStart + durMs ≤ dayEnd then
    (if now + 60000 < slotStart then [⟨slotStart, slotStart + durMs⟩] else [])
      ++ genLoop (slotStart + durMs) dayEnd durMs now
  else []
termination_by (dayEnd - slotStart).toNat
decreasing_by omega

/-- AvailabilityService.generateSlotsForDay (lines 619-673): expand one rule's
window on the UTC calendar day of `date` into fixed-width slots. -/
def generateSlotsForDay (date : Int) (startTime endTime : HM)
    (durationMinutes now : Int) : List Ivl :=
  genLoop (utcMidnight date + startTime.toMs) (utcMidnight date + endTime.toMs)
    (durationMinutes * 60000) now

/-- An availability rule row as used by slot generation: the fields of
`availabilityRules.$inferSelect` that the availability code reads. -/
structure ARule where
  bookingUserId : String
  dayOfWeek : Int
  startTime : HM
  endTime : HM
  isActive : Bool
deriving DecidableEq, Repr

/-- AvailabilityService.generateSlotsFromRules (lines 572-613): walk each day
from `startDate` while `currentDate <= endDate`; on each day take the rules
whose `dayOfWeek` equals `currentDate.getDay()` — the day of week in the
process's LOCAL timezone, modelled by `tzOffMs` — and expand each through
generateSlotsForDay. The source groups the rules into a by-day map and looks
the day up; with insertion-order-preserving JS maps that is exactly a filter
of the rule list, which is how it is written here.
`currentDate.setDate(currentDate.getDate() + 1)` advances the instant by
exactly one local calendar day, i.e. 24h under a fixed offset. -/
def generateSlotsFromRules (rules : List ARule) (currentDate endDate : Int)
    (durationMinutes now tzOffMs : Int) : List Ivl :=
  if _h : currentDate ≤ endDate then
    ((rules.filter fun r => r.dayOfWeek == dayOfWeek currentDate tzOffMs).flatMap
        fun r => generateSlotsForDay currentDate r.startTime r.endTime durationMinutes now)
      ++ generateSlotsFromRules rules (currentDate + msPerDay) endDate durationMinutes now tzOffMs
  else []
termination_by (endDate + msPerDay - currentDate).toNat
decreasing_by simp only [msPerDay]; omega

/-- A booking row: the fields of `bookings.$inferSelect` that the availability
and booking code reads. -/
structure Booking where
  id : String
  bookingUserId : String
  organizationId : String
  startTime : Int
  stopTime : Int
  status : String
  googleEventId : Option String
  cancellationReason : Option String
deriving DecidableEq, Repr

/-- A booking user row: the fields of `bookingUsers.$inferSelect` that the
booking path reads. -/
structure BUser where
  id : String
  isActive : Bool
  googleCalendarId : Option String
deriving DecidableEq, Repr

/-- The confirmed-bookings busy query of getAvailableSlots (lines 124-132,
busy-time construction line 172): all bookings of `userId` with status
`'confirmed'` overlapping the window (`endTime > winStart AND
startTime < winEnd`), as busy intervals. -/
def confirmedBusyTimes (bookingsDb : List Booking) (userId : String)
    (winStart winEnd : Int) : List Ivl :=
  (bookingsDb.filter fun b =>
      b.bookingUserId == userId && b.status == "confirmed"
        && decide (b.stopTime > winStart) && decide (b.startTime < winEnd)).map
    fun b => ⟨b.startTime, b.stopTime⟩

/-- AvailabilityService.isSlotAvailable (lines 873-925): the slot is available
iff no confirmed booking of the user satisfies
`startTime < endTime_req AND endTime > startTime_req` (the `findFirst` query,
lines 879-886) and no Google Calendar busy interval overlaps the requested
interval under `timesOverlap(startTime, endTime, busy.start, busy.end)`
(lines 907-911). The externally fetched busy list is a parameter. -/
def isSlotAvailable (bookingsDb : List Booking) (googleBusy : List Ivl)
    (userId : String) (startTime endTime : Int) : Bool :=
  match bookingsDb.find? (fun b =>
      b.bookingUserId == userId && b.status == "confirmed"
        && decide (b.startTime < endTime) && decide (b.stopTime > startTime)) with
  | some _ => false
  | none =>
    ! googleBusy.any fun busy => timesOverlap startTime endTime busy.start busy.stop

/-- Error signals thrown by BookingService.createBooking / cancelBooking. -/
inductive BookingError where
  | slotUnavailable
  | userNotFound
  | userNotActive
  | bookingNotFound
deriving DecidableEq, Repr

/-- A booking request, the fields of CreateBookingData that reach the insert. -/
structure CreateReq where
  userId : String
  organizationId : String
  startTime : Int
  stopTime : Int
deriving DecidableEq, Repr

/-- BookingService.createBooking (lines 45-129) as a transition on the
bookings table. Steps in source order: (1) re-check availability via
isSlotAvailable and throw `'Time slot is not available'` when it fails;
(2) load the user, throwing when missing or inactive; (3) best-effort Google
Calendar event creation — an external call whose outcome (an event id, or
nothing when the user has no calendar or the call failed and was caught) is
the parameter `calendarEventId`; (4) insert the booking row with status
`'confirmed'`. Returns the new table state and the inserted row. -/
def createBooking (bookingsDb : List Booking) (users : List BUser)
    (googleBusy : List Ivl) (req : CreateReq) (newId : String)
    (calendarEventId : Option String) :
    Except BookingError (List Booking × Booking) :=
  if isSlotAvailable bookingsDb googleBusy req.userId req.startTime req.stopTime then
    match users.find? (fun u => u.id == req.userId) with
    | none => .error .userNotFound
    | some u =>
      if u.isActive then
        let booking : Booking :=
          { id := newId
            bookingUserId := req.userId
            organizationId := req.organizationId
            startTime := req.startTime
            stopTime := req.stopTime
            status := "confirmed"
            googleEventId := calendarEventId
            cancellationReason := none }
        .ok (bookingsDb ++ [booking], booking)
      else .error .userNotActive
  else .error .slotUnavailable

/-- BookingService.cancelBooking (lines 250-290) as a transition on the
bookings table: look the booking up (404 when absent), best-effort delete of
the Google Calendar event (external, caught on failure — no effect on the
table), then update the row to status `'cancelled'` with the cancellation
reason, retaining the row. -/
def cancelBooking (bookingsDb : List Booking) (bookingId : String)
    (reason : Option String) : Except BookingError (List Booking) :=
  match bookingsDb.find? (fun b => b.id == bookingId) with
  | none => .error .bookingNotFound
  | some _ =>
    .ok (bookingsDb.map fun b =>
      if b.id == bookingId then
        { b with status := "cancelled", cancellationReason := reason }
      else b)

/-- The candidate-date walk of getAvailableDays (AvailabilityService.ts lines
761-777): walk one UTC day at a time (`setUTCDate(getUTCDate() + 1)` adds
exactly 24h) while `currentDate <= endDate`, keeping the instants whose UTC
day of week has a rule (`availableDaysOfWeek`) and that are not in the past
(`currentDate >= now`); each kept date is recorded as its ISO date
(`epochDay`) together with its day of week. -/
def candidateDates (currentDate endDate now : Int) (dows : List Int) :
    List (Int × Int) :=
  if _h : currentDate ≤ endDate then
    (if dows.contains (dayOfWeek currentDate 0) && decide (now ≤ currentDate) then
        [(epochDay currentDate, dayOfWeek currentDate 0)]
      else [])
      ++ candidateDates (currentDate + msPerDay) endDate now dows
  else []
termination_by (endDate + msPerDay - currentDate).toNat
decreasing_by simp only [msPerDay]; omega

/-- The theoretical per-day slot capacity of getAvailableDays (lines 810-826):
for one user and one day of week, the sum over that user's rules with that
day of week of `Math.floor(ruleMinutes / duration)`. -/
def potentialSlotCount (userRules : List ARule) (dow : Int) (duration : Int) : Int :=
  ((userRules.filter fun r => r.dayOfWeek == dow).map fun r =>
      (r.endTime.toMinutes - r.startTime.toMinutes).fdiv duration).sum

/-- The per-user-per-date confirmed-booking count of getAvailableDays: the
bookings grouped at lines 794-808 are exactly those returned by the window
query of lines 785-792, bucketed by the ISO date of their start. -/
def dateBookingCount (bookingsDb : List Booking) (userIds : List String)
    (winStart winEnd : Int) (userId : String) (day : Int) : Nat :=
  (bookingsDb.filter fun b =>
      userIds.contains b.bookingUserId && b.status == "confirmed"
        && decide (b.stopTime > winStart) && decide (b.startTime < winEnd)
        && b.bookingUserId == userId && epochDay b.startTime == day).length

/-- QUERY 2 of getAvailableDays (and of getAvailableSlots): the active
availability rules of the organization's users. -/
def activeRules (userIds : List String) (rulesDb : List ARule) : List ARule :=
  rulesDb.filter fun r => userIds.contains r.bookingUserId && r.isActive

/-- The marking loop of getAvailableDays (lines 828-848): a candidate date is
marked once some user has a nonzero theoretical slot capacity for its day of
week (`!potentialSlots` skips 0 and absent entries) and strictly fewer
counted bookings on that date than the capacity. -/
def markedDates (userIds : List String) (rulesDb : List ARule)
    (bookingsDb : List Booking) (startDate endDate duration now : Int) :
    List (Int × Int) :=
  (candidateDates startDate endDate now
      ((activeRules userIds rulesDb).map (·.dayOfWeek))).filter fun c =>
    userIds.any fun uid =>
      let p := potentialSlotCount
        ((activeRules userIds rulesDb).filter fun r => r.bookingUserId == uid)
        c.2 duration
      ! (p == 0) &&
        decide ((dateBookingCount bookingsDb userIds startDate endDate uid c.1 : Int) < p)

/-- AvailabilityService.getAvailableDays (lines 708-862). Inputs: the active
user ids of the organization (QUERY 1), the availability-rule table (QUERY 2
filters it to active rules of those users), the bookings table (QUERY 3
filters it to confirmed bookings overlapping the window), the window, the
resolved duration, and `now`. The marked dates are returned deduplicated and
sorted (the source collects them into a `Set` and sorts the ISO strings). -/
def getAvailableDays (userIds : List String) (rulesDb : List ARule)
    (bookingsDb : List Booking) (startDate endDate duration now : Int) :
    List Int :=
  if (activeRules userIds rulesDb).isEmpty then []
  else
    ((markedDates userIds rulesDb bookingsDb startDate endDate duration now).map
        (·.1)).dedup.mergeSort (fun a b => a ≤ b)

/-- Splits a list into chunks of at most 50 elements, as the batching loops at
GoogleCalendarService.ts lines 444-451. -/
def chunks50 {α : Type} (l : List α) : List (List α) :=
  if _h : l.length = 0 then []
  else l.take 50 :: chunks50 (l.drop 50)
termination_by l.length
decreasing_by
  simp only [List.length_drop]
  omega

/-- One busy period of a Google freebusy response; either bound may be absent
(the source keeps only periods with both, line 484). -/
structure FBPeriod where
  startP : Option Int
  stopP : Option Int
deriving DecidableEq, Repr

/-- A freebusy response: busy periods keyed by calendar id. -/
def FBResponse : Type := List (String × List FBPeriod)

/-- GoogleCalendarService.batchQueryFreeBusy (lines 433-517). The entries of
`userCalendarMap` are `(bookingUserId, calendarId)` pairs; the provider call
for one batch is the oracle parameter `query` (an `Except`, failure standing
for the thrown error caught at lines 497-507). Per batch: on success, each
user gets the busy periods of its calendar from the response (missing
calendar → `[]`, line 477-480; periods without both bounds are dropped,
lines 483-488); on failure, every user of the batch is set to `[]`
(lines 503-506). The pairs of all batches form the returned map. -/
def batchQueryFreeBusy (query : List (String × String) → Except Unit FBResponse)
    (userCalendarMap : List (String × String)) : List (String × List Ivl) :=
  (chunks50 userCalendarMap).flatMap fun batch =>
    match query batch with
    | .ok calendars =>
      batch.map fun p =>
        match (calendars.find? fun c => c.1 == p.2) with
        | none => (p.1, [])
        | some c =>
          (p.1, (c.2.filter fun per => per.startP.isSome && per.stopP.isSome).map
            fun per => ⟨per.startP.getD 0, per.stopP.getD 0⟩)
    | .error _ => batch.map fun p => (p.1, ([] : List Ivl))

/-! ### Helper lemmas -/

/-- Membership in the slot-generation loop: an interval is produced iff the
duration is positive, its start lies on the arithmetic progression of slot
starts, it has the slot width, it ends no later than the rule window, and its
start passes the 1-minute future guard. -/
theorem mem_genLoop {s e d now : Int} {iv : Ivl} :
    iv ∈ genLoop s e d now ↔
      0 < d ∧ (∃ n : ℕ, iv.start = s + n * d) ∧ iv.stop = iv.start + d ∧
        iv.stop ≤ e ∧ now + 60000 < iv.start := by
  induction s, e, d, now using genLoop.induct with
  | case1 s e d now h ih =>
    rw [genLoop, dif_pos h]
    obtain ⟨hd, hse⟩ := h
    simp only [List.mem_append, ih]
    constructor
    · rintro (hmem | ⟨_, ⟨n, hn⟩, hstop, hle, hfut⟩)
      · by_cases hf : now + 60000 < s
        · rw [if_pos hf] at hmem
          simp only [List.mem_singleton] at hmem
          subst hmem
          exact ⟨hd, ⟨0, by simp⟩, rfl, hse, hf⟩
        · rw [if_neg hf] at hmem
          simp at hmem
      · refine ⟨hd, ⟨n + 1, ?_⟩, hstop, hle, hfut⟩
        rw [hn]; push_cast; ring
    · rintro ⟨hd', ⟨n, hn⟩, hstop, hle, hfut⟩
      cases n with
      | zero =>
        left
        have hs : iv.start = s := by simpa using hn
        rw [if_pos (hs ▸ hfut)]
        obtain ⟨a, b⟩ := iv
        simp only [List.mem_singleton]
        simp only at hs hstop
        rw [Ivl.mk.injEq]
        exact ⟨hs, by rw [hstop, hs]⟩
      | succ n =>
        right
        refine ⟨hd, ⟨n, ?_⟩, hstop, hle, hfut⟩
        rw [hn]; push_cast; ring
  | case2 s e d now h =>
    rw [genLoop, dif_neg h]
    simp only [List.not_mem_nil, false_iff]
    rintro ⟨hd, ⟨n, hn⟩, hstop, hle, hfut⟩
    apply h
    refine ⟨hd, ?_⟩
    have hn0 : (0 : ℤ) ≤ (n : ℤ) * d := mul_nonneg (by positivity) hd.le
    linarith [hn, hstop, hle]

/-- Closed form of the slot-generation loop when every slot passes the future
guard: exactly `toNat ((e - s) / d)` back-to-back slots starting at `s`. -/
theorem genLoop_closed {d now : Int} (hd : 0 < d) :
    ∀ (s e : Int), now + 60000 < s →
      genLoop s e d now =
        (List.range ((e - s) / d).toNat).map
          fun n : ℕ => (⟨s + (n : ℤ) * d, s + (n : ℤ) * d + d⟩ : Ivl) := by
  intro s e
  induction s, e, d, now using genLoop.induct with
  | case1 s e d now h ih =>
    intro hfut
    obtain ⟨hd', hse⟩ := h
    rw [genLoop, dif_pos ⟨hd', hse⟩, if_pos hfut]
    rw [ih hd' (by omega)]
    have hstep : (e - s) / d = (e - (s + d)) / d + 1 := by
      have : e - s = (e - (s + d)) + 1 * d := by ring
      rw [this, Int.add_mul_ediv_right _ _ (by omega)]
    have hnn : 0 ≤ (e - (s + d)) / d := Int.ediv_nonneg (by omega) hd'.le
    rw [hstep]
    have htn : ((e - (s + d)) / d + 1).toNat = ((e - (s + d)) / d).toNat + 1 := by
      omega
    rw [htn, List.range_succ_eq_map, List.map_cons, List.map_map,
      List.singleton_append]
    congr 1
    · simp
    · apply List.map_congr_left
      intro n _
      simp only [Function.comp_apply, Nat.succ_eq_add_one, Ivl.mk.injEq]
      constructor
      · push_cast; ring
      · push_cast; ring
  | case2 s e d now h =>
    intro hfut
    rw [genLoop, dif_neg h]
    rcases not_and_or.mp h with hd0 | hle
    · omega
    · have : (e - s) / d < 1 := by
        rw [Int.ediv_lt_iff_lt_mul hd]
        omega
      have : ((e - s) / d).toNat = 0 := by omega
      rw [this]
      simp

/-! ### C1: the slot filter's exclusion predicate -/

/-- C1: a candidate slot is excluded by the slot filter iff some busy interval
satisfies `candidate.start - buffer < busy.end AND candidate.end + buffer >
busy.start`; equivalently a candidate survives iff, padded by the buffer on
both ends, it overlaps no busy interval under the half-open test. -/
theorem slotFilter_excludes_iff (bufferMinutes : Int)
    (busyTimes potentialSlots : List Ivl) (slot : Ivl)
    (hmem : slot ∈ potentialSlots) :
    slot ∉ filterAvailableSlots bufferMinutes busyTimes potentialSlots ↔
      ∃ busy ∈ busyTimes, slot.start - bufferMinutes * 60000 < busy.stop ∧
        slot.stop + bufferMinutes * 60000 > busy.start := by
  simp [filterAvailableSlots, List.mem_filter, hmem, timesOverlap, gt_iff_lt]

/-- Witness for C1: the candidate `[0, 100)` against the busy interval
`[50, 60)` with buffer 0 is excluded, and the exclusion predicate holds. -/
theorem slotFilter_excludes_iff_witness :
    (⟨0, 100⟩ : Ivl) ∈ [(⟨0, 100⟩ : Ivl)] ∧
      ((⟨0, 100⟩ : Ivl) ∉ filterAvailableSlots 0 [⟨50, 60⟩] [⟨0, 100⟩] ↔
        ∃ busy ∈ [(⟨50, 60⟩ : Ivl)], (0 : Int) - 0 * 60000 < busy.stop ∧
          (100 : Int) + 0 * 60000 > busy.start) :=
  ⟨by simp, slotFilter_excludes_iff 0 [⟨50, 60⟩] [⟨0, 100⟩] ⟨0, 100⟩ (by simp)⟩

/-! ### C8: back-to-back bookings and the buffer -/

/-- C8: a booking ending exactly at a candidate slot's start does not exclude
that slot when the buffer is 0, and excludes it for every positive buffer. -/
theorem backToBack_boundary (slot bk : Ivl) (hbk : bk.start ≤ bk.stop)
    (hadj : bk.stop = slot.start) (hslot : slot.start < slot.stop) :
    slot ∈ filterAvailableSlots 0 [bk] [slot] ∧
      ∀ bufferMinutes : Int, 0 < bufferMinutes →
        slot ∉ filterAvailableSlots bufferMinutes [bk] [slot] := by
  constructor
  · simp [filterAvailableSlots, List.mem_filter, timesOverlap]
    omega
  · intro bufferMinutes hbuf
    simp [filterAvailableSlots, List.mem_filter, timesOverlap]
    omega

/-- Witness for C8: slot `[100, 200)`, booking `[40, 100)`. -/
theorem backToBack_boundary_witness :
    ((40 : Int) ≤ 100 ∧ (100 : Int) = 100 ∧ (100 : Int) < 200) ∧
      ((⟨100, 200⟩ : Ivl) ∈ filterAvailableSlots 0 [⟨40, 100⟩] [⟨100, 200⟩] ∧
        ∀ bufferMinutes : Int, 0 < bufferMinutes →
          (⟨100, 200⟩ : Ivl) ∉
            filterAvailableSlots bufferMinutes [⟨40, 100⟩] [⟨100, 200⟩]) :=
  ⟨⟨by norm_num, rfl, by norm_num⟩,
    backToBack_boundary ⟨100, 200⟩ ⟨40, 100⟩ (by norm_num) rfl (by norm_num)⟩

/-! ### C2: exactness of one rule's expansion -/

/-- C2: on one day, a rule with `start < end` and positive duration expands to
exactly the width-`d` intervals starting at `ruleStart + n*d` for consecutive
`n` from 0 whose end does not exceed `ruleEnd`; every generated slot has width
`d` and ends within the rule window, and consecutive generated slots are
back-to-back (slot `i+1` starts where slot `i` ends). Stated for a `now`
preceding the rule window so that the orthogonal future guard (claim C6)
drops nothing. -/
theorem ruleExpansion_exact (date : Int) (startTime endTime : HM)
    (durationMinutes now : Int)
    (hlt : startTime.toMinutes < endTime.toMinutes)
    (hdur : 0 < durationMinutes)
    (hfut : now + 60000 < utcMidnight date + startTime.toMs) :
    generateSlotsForDay date startTime endTime durationMinutes now =
        (List.range ((endTime.toMs - startTime.toMs) /
            (durationMinutes * 60000)).toNat).map
          (fun n : ℕ =>
            (⟨utcMidnight date + startTime.toMs + (n : ℤ) * (durationMinutes * 60000),
              utcMidnight date + startTime.toMs + (n : ℤ) * (durationMinutes * 60000)
                + durationMinutes * 60000⟩ : Ivl)) ∧
      (∀ iv ∈ generateSlotsForDay date startTime endTime durationMinutes now,
        iv.stop ≤ utcMidnight date + endTime.toMs ∧ iv.stop = iv.start + durationMinutes * 60000) ∧
      List.Chain' (fun a b => b.start = a.stop)
        (generateSlotsForDay date startTime endTime durationMinutes now) := by
  have hD : 0 < durationMinutes * 60000 := by positivity
  have hclosed := @genLoop_closed (durationMinutes * 60000) now hD
    (utcMidnight date + startTime.toMs) (utcMidnight date + endTime.toMs) hfut
  have harg : utcMidnight date + endTime.toMs - (utcMidnight date + startTime.toMs)
      = endTime.toMs - startTime.toMs := by ring
  refine ⟨?_, ?_, ?_⟩
  · unfold generateSlotsForDay
    rw [hclosed, harg]
  · intro iv hiv
    unfold generateSlotsForDay at hiv
    rw [mem_genLoop] at hiv
    exact ⟨hiv.2.2.2.1, hiv.2.2.1⟩
  · unfold generateSlotsForDay
    rw [hclosed, List.chain'_map]
    cases hN : ((utcMidnight date + endTime.toMs -
        (utcMidnight date + startTime.toMs)) / (durationMinutes * 60000)).toNat with
    | zero => simp
    | succ m =>
      rw [List.chain'_range_succ]
      intro k hk
      simp only []
      push_cast
      ring

/-- Witness for C2: a 09:00-10:00 rule on the epoch day with duration 30 and
`now` = 0 expands to the two half-hour slots. -/
theorem ruleExpansion_exact_witness :
    ((⟨9, 0⟩ : HM).toMinutes < (⟨10, 0⟩ : HM).toMinutes ∧ (0 : Int) < 30 ∧
        (0 : Int) + 60000 < utcMidnight 0 + (⟨9, 0⟩ : HM).toMs) ∧
      generateSlotsForDay 0 ⟨9, 0⟩ ⟨10, 0⟩ 30 0 =
        (List.range (((⟨10, 0⟩ : HM).toMs - (⟨9, 0⟩ : HM).toMs) /
            ((30 : Int) * 60000)).toNat).map
          (fun n : ℕ =>
            (⟨utcMidnight 0 + (⟨9, 0⟩ : HM).toMs + (n : ℤ) * ((30 : Int) * 60000),
              utcMidnight 0 + (⟨9, 0⟩ : HM).toMs + (n : ℤ) * ((30 : Int) * 60000)
                + (30 : Int) * 60000⟩ : Ivl)) :=
  ⟨⟨by decide, by decide, by decide⟩,
    (ruleExpansion_exact 0 ⟨9, 0⟩ ⟨10, 0⟩ 30 0 (by decide) (by decide) (by decide)).1⟩

/-! ### C6: the 1-minute future guard -/

/-- C6: a candidate slot of the generated progression is kept iff its start is
strictly more than one minute after `now`; a slot whose start is at or before
`now + 60000` is dropped. -/
theorem futureGuard_iff (date : Int) (startTime endTime : HM)
    (durationMinutes now st : Int)
    (hdur : 0 < durationMinutes)
    (hprog : ∃ n : ℕ,
      st = utcMidnight date + startTime.toMs + (n : ℤ) * (durationMinutes * 60000))
    (hend : st + durationMinutes * 60000 ≤ utcMidnight date + endTime.toMs) :
    (⟨st, st + durationMinutes * 60000⟩ : Ivl) ∈
        generateSlotsForDay date startTime endTime durationMinutes now ↔
      now + 60000 < st := by
  unfold generateSlotsForDay
  rw [mem_genLoop]
  constructor
  · rintro ⟨-, -, -, -, h5⟩
    exact h5
  · intro h5
    exact ⟨by positivity, hprog, rfl, hend, h5⟩

/-- Witness for C6: with `now` one second before the 09:00 slot start, the
09:00 slot of a 09:00-10:00 rule is dropped (start is not more than a minute
in the future). -/
theorem futureGuard_iff_witness :
    ((0 : Int) < 30 ∧
        (32400000 : Int) + 30 * 60000 ≤ utcMidnight 0 + (⟨10, 0⟩ : HM).toMs) ∧
      ((⟨32400000, 32400000 + 30 * 60000⟩ : Ivl) ∈
          generateSlotsForDay 0 ⟨9, 0⟩ ⟨10, 0⟩ 30 32399000 ↔
        (32399000 : Int) + 60000 < 32400000) :=
  ⟨⟨by decide, by decide⟩,
    futureGuard_iff 0 ⟨9, 0⟩ ⟨10, 0⟩ 30 32399000 32400000 (by decide)
      ⟨0, by decide⟩ (by decide)⟩

/-- Characterization of isSlotAvailable: true iff no confirmed booking of the
user overlaps the requested interval under the unpadded half-open test, and no
external busy interval overlaps it. -/
theorem isSlotAvailable_iff (bookingsDb : List Booking) (googleBusy : List Ivl)
    (userId : String) (s e : Int) :
    isSlotAvailable bookingsDb googleBusy userId s e = true ↔
      (∀ b ∈ bookingsDb,
        ¬(b.bookingUserId = userId ∧ b.status = "confirmed" ∧
          b.startTime < e ∧ b.stopTime > s)) ∧
      (∀ g ∈ googleBusy, ¬(s < g.stop ∧ e > g.start)) := by
  unfold isSlotAvailable
  cases hfind : bookingsDb.find? (fun b =>
      b.bookingUserId == userId && b.status == "confirmed"
        && decide (b.startTime < e) && decide (b.stopTime > s)) with
  | some b =>
    have hmem := List.mem_of_find?_eq_some hfind
    have hpred := List.find?_some hfind
    simp only [Bool.and_eq_true, beq_iff_eq, decide_eq_true_eq] at hpred
    refine iff_of_false (by simp) ?_
    rintro ⟨hb, -⟩
    exact hb b hmem ⟨hpred.1.1.1, hpred.1.1.2, hpred.1.2, hpred.2⟩
  | none =>
    rw [List.find?_eq_none] at hfind
    rw [Bool.not_eq_true', List.any_eq_false]
    constructor
    · intro hg
      refine ⟨?_, ?_⟩
      · intro b hb hc
        apply hfind b hb
        simp only [Bool.and_eq_true, beq_iff_eq, decide_eq_true_eq]
        exact ⟨⟨⟨hc.1, hc.2.1⟩, hc.2.2.1⟩, hc.2.2.2⟩
      · intro g hgm hc
        apply hg g hgm
        simp only [timesOverlap, Bool.and_eq_true, decide_eq_true_eq]
        exact ⟨hc.1, hc.2⟩
    · rintro ⟨-, hg⟩ g hgm hover
      simp only [timesOverlap, Bool.and_eq_true, decide_eq_true_eq] at hover
      exact hg g hgm ⟨hover.1, hover.2⟩

/-! ### C3: the reservation guard rejects on conflict without writing -/

/-- C3: if the availability re-check reports the interval unavailable,
createBooking signals the conflict error and the bookings table is untouched
(the transition is a pure error, writing nothing); conversely a successful
createBooking implies the re-check passed, and the only write is the single
confirmed row appended after it. -/
theorem createBooking_guard (bookingsDb : List Booking) (users : List BUser)
    (googleBusy : List Ivl) (req : CreateReq) (newId : String)
    (calendarEventId : Option String) :
    (isSlotAvailable bookingsDb googleBusy req.userId req.startTime req.stopTime
          = false →
        createBooking bookingsDb users googleBusy req newId calendarEventId =
          .error .slotUnavailable) ∧
      (∀ dbNew bk,
        createBooking bookingsDb users googleBusy req newId calendarEventId =
            .ok (dbNew, bk) →
          isSlotAvailable bookingsDb googleBusy req.userId req.startTime
              req.stopTime = true ∧
            dbNew = bookingsDb ++ [bk] ∧ bk.status = "confirmed") := by
  constructor
  · intro h
    unfold createBooking
    rw [h]
    simp
  · intro dbNew bk h
    unfold createBooking at h
    split at h
    · rename_i havail
      split at h
      · exact absurd h (by simp)
      · split at h
        · simp only [Except.ok.injEq, Prod.mk.injEq] at h
          refine ⟨havail, ?_, ?_⟩
          · rw [← h.2]
            exact h.1.symm
          · rw [← h.2]
        · exact absurd h (by simp)
    · exact absurd h (by simp)

/-- Witness for C3: a table holding a confirmed booking of user `u` over
`[10, 20)` makes the re-check of a `[10, 20)` request fail and createBooking
reject with the conflict error. -/
theorem createBooking_guard_witness :
    isSlotAvailable
        [{ id := "b1", bookingUserId := "u", organizationId := "o",
           startTime := 10, stopTime := 20, status := "confirmed",
           googleEventId := none, cancellationReason := none }] [] "u" 10 20
        = false ∧
      createBooking
          [{ id := "b1", bookingUserId := "u", organizationId := "o",
             startTime := 10, stopTime := 20, status := "confirmed",
             googleEventId := none, cancellationReason := none }]
          [{ id := "u", isActive := true, googleCalendarId := none }] []
          { userId := "u", organizationId := "o", startTime := 10, stopTime := 20 }
          "b2" none = .error .slotUnavailable :=
  ⟨rfl,
    (createBooking_guard _ _ _ _ _ _).1 rfl⟩

/-! ### C9: the reservation re-check applies no buffer -/

/-- C9: isSlotAvailable is true iff no confirmed booking of the person and no
external busy interval overlaps the requested interval under the UNPADDED
half-open test; consequently, for any positive configured buffer, an interval
directly adjacent to an existing confirmed booking still validates as
available at booking time even though the bulk slot listing would exclude it
after padding. -/
theorem recheck_unbuffered (bookingsDb : List Booking) (googleBusy : List Ivl)
    (userId : String) (s e : Int) :
    (isSlotAvailable bookingsDb googleBusy userId s e = true ↔
      (∀ b ∈ bookingsDb,
        ¬(b.bookingUserId = userId ∧ b.status = "confirmed" ∧
          b.startTime < e ∧ b.stopTime > s)) ∧
      (∀ g ∈ googleBusy, ¬(s < g.stop ∧ e > g.start))) ∧
    (∀ bk : Booking, ∀ bufferMinutes : Int,
      bk.startTime ≤ bk.stopTime → bk.stopTime = s → s < e → 0 < bufferMinutes →
        isSlotAvailable [bk] [] userId s e = true ∧
          (⟨s, e⟩ : Ivl) ∉ filterAvailableSlots bufferMinutes
            [⟨bk.startTime, bk.stopTime⟩] [⟨s, e⟩]) := by
  refine ⟨isSlotAvailable_iff bookingsDb googleBusy userId s e, ?_⟩
  intro bk bufferMinutes hord hadj hse hbuf
  constructor
  · rw [isSlotAvailable_iff]
    refine ⟨?_, by simp⟩
    intro b hb hc
    simp only [List.mem_singleton] at hb
    subst hb
    omega
  · simp [filterAvailableSlots, List.mem_filter, timesOverlap]
    omega

/-- Witness for C9: user `u`, requested interval `[20, 30)`, booking `[10, 20)`
ending exactly at the requested start, buffer 15. -/
theorem recheck_unbuffered_witness :
    (((10 : Int) ≤ 20 ∧ (20 : Int) = 20 ∧ (20 : Int) < 30 ∧ (0 : Int) < 15) ∧
      isSlotAvailable
          [{ id := "b1", bookingUserId := "u", organizationId := "o",
             startTime := 10, stopTime := 20, status := "confirmed",
             googleEventId := none, cancellationReason := none }] [] "u" 20 30
          = true ∧
        (⟨20, 30⟩ : Ivl) ∉ filterAvailableSlots 15 [⟨10, 20⟩] [⟨20, 30⟩]) :=
  ⟨⟨by norm_num, rfl, by norm_num, by norm_num⟩,
    (recheck_unbuffered
        [{ id := "b1", bookingUserId := "u", organizationId := "o",
           startTime := 10, stopTime := 20, status := "confirmed",
           googleEventId := none, cancellationReason := none }] [] "u" 20 30).2
      { id := "b1", bookingUserId := "u", organizationId := "o",
        startTime := 10, stopTime := 20, status := "confirmed",
        googleEventId := none, cancellationReason := none }
      15 (by norm_num) rfl (by norm_num) (by norm_num)⟩

/-! ### C10: cancelled bookings are inert -/

/-- The row update performed by cancelBooking. -/
def cancelRow (bookingId : String) (reason : Option String) (b : Booking) :
    Booking :=
  if b.id == bookingId then
    { b with status := "cancelled", cancellationReason := reason }
  else b

/-- Busy intervals built from the confirmed-booking query are unchanged by
dropping rows whose status is not confirmed; cancelling a row is equivalent to
deleting it as far as the busy query is concerned. -/
theorem confirmedBusyTimes_cancel (bookingsDb : List Booking) (bid : String)
    (reason : Option String) (userId : String) (winStart winEnd : Int) :
    confirmedBusyTimes (bookingsDb.map (cancelRow bid reason)) userId winStart winEnd =
      confirmedBusyTimes (bookingsDb.filter fun b => ! (b.id == bid)) userId
        winStart winEnd := by
  induction bookingsDb with
  | nil => rfl
  | cons a l ih =>
    simp only [List.map_cons, List.filter_cons]
    by_cases ha : a.id = bid
    · have h1 : cancelRow bid reason a =
          { a with status := "cancelled", cancellationReason := reason } := by
        simp [cancelRow, ha]
      have h2 : (! (a.id == bid)) = false := by simp [ha]
      rw [h1, h2]
      simp only [Bool.false_eq_true, if_false]
      unfold confirmedBusyTimes
      simp only [List.filter_cons]
      have : ({ a with status := "cancelled", cancellationReason := reason
          : Booking }.bookingUserId == userId
          && ({ a with status := "cancelled", cancellationReason := reason
            : Booking }.status == "confirmed")
          && decide ({ a with status := "cancelled", cancellationReason := reason
            : Booking }.stopTime > winStart)
          && decide ({ a with status := "cancelled", cancellationReason := reason
            : Booking }.startTime < winEnd)) = false := by
        simp
      rw [this]
      simp only [Bool.false_eq_true, if_false]
      exact ih
    · have h1 : cancelRow bid reason a = a := by simp [cancelRow, ha]
      have h2 : (! (a.id == bid)) = true := by simp [ha]
      rw [h1, h2]
      simp only [if_true]
      unfold confirmedBusyTimes
      simp only [List.filter_cons]
      by_cases hp : (a.bookingUserId == userId && (a.status == "confirmed")
          && decide (a.stopTime > winStart) && decide (a.startTime < winEnd)) = true
      · rw [hp]
        simp only [if_true, List.map_cons]
        unfold confirmedBusyTimes at ih
        rw [ih]
      · rw [Bool.not_eq_true] at hp
        rw [hp]
        simp only [Bool.false_eq_true, if_false]
        unfold confirmedBusyTimes at ih
        rw [ih]

/-- C10: only confirmed bookings are treated as busy. After cancelBooking
succeeds, the row count is unchanged (the row is retained) and the cancelled
row's status is `'cancelled'`; for every availability query the cancelled
booking is as if deleted: isSlotAvailable coincides with its value on the
table with the row removed, and the slot filter fed from the confirmed-busy
query coincides with its value on the table with the row removed. -/
theorem cancelledBooking_inert (bookingsDb : List Booking) (bid : String)
    (reason : Option String) (dbNew : List Booking)
    (h : cancelBooking bookingsDb bid reason = .ok dbNew) :
    dbNew.length = bookingsDb.length ∧
      (∀ b ∈ dbNew, b.id = bid → b.status = "cancelled") ∧
      (∀ googleBusy userId s e,
        isSlotAvailable dbNew googleBusy userId s e =
          isSlotAvailable (bookingsDb.filter fun b => ! (b.id == bid))
            googleBusy userId s e) ∧
      (∀ bufferMinutes googleEvents slots userId winStart winEnd,
        filterAvailableSlots bufferMinutes
            (confirmedBusyTimes dbNew userId winStart winEnd ++ googleEvents) slots =
          filterAvailableSlots bufferMinutes
            (confirmedBusyTimes (bookingsDb.filter fun b => ! (b.id == bid))
                userId winStart winEnd ++ googleEvents) slots) := by
  have hdb : dbNew = bookingsDb.map (cancelRow bid reason) := by
    unfold cancelBooking at h
    cases hfind : bookingsDb.find? (fun b => b.id == bid) with
    | none =>
      rw [hfind] at h
      exact absurd h (by simp)
    | some b =>
      rw [hfind] at h
      simp only [Except.ok.injEq] at h
      rw [← h]
      apply List.map_congr_left
      intro x _
      rfl
  subst hdb
  refine ⟨List.length_map _ _, ?_, ?_, ?_⟩
  · intro b hb hbid
    obtain ⟨a, ha, hfa⟩ := List.mem_map.mp hb
    by_cases hcase : a.id = bid
    · rw [← hfa]
      simp [cancelRow, hcase]
    · rw [← hfa] at hbid
      simp only [cancelRow] at hbid
      rw [if_neg (by simpa using hcase)] at hbid
      exact absurd hbid hcase
  · intro googleBusy userId s e
    rw [Bool.eq_iff_iff, isSlotAvailable_iff, isSlotAvailable_iff]
    constructor
    · rintro ⟨hb, hg⟩
      refine ⟨?_, hg⟩
      intro b hbm hc
      rw [List.mem_filter] at hbm
      have hne : ¬ b.id = bid := by simpa using hbm.2
      refine hb (cancelRow bid reason b) (List.mem_map_of_mem _ hbm.1) ?_
      have : cancelRow bid reason b = b := by simp [cancelRow, hne]
      rw [this]
      exact hc
    · rintro ⟨hb, hg⟩
      refine ⟨?_, hg⟩
      intro b hbm hc
      obtain ⟨a, ha, hfa⟩ := List.mem_map.mp hbm
      by_cases hcase : a.id = bid
      · have : b.status = "cancelled" := by
          rw [← hfa]
          simp [cancelRow, hcase]
        rw [hc.2.1] at this
        exact absurd this (by decide)
      · have heq : b = a := by
          rw [← hfa]
          simp [cancelRow, hcase]
        subst heq
        refine hb b ?_ hc
        rw [List.mem_filter]
        exact ⟨ha, by simpa using hcase⟩
  · intro bufferMinutes googleEvents slots userId winStart winEnd
    rw [confirmedBusyTimes_cancel]

/-- Witness for C10: cancelling the only (confirmed) booking succeeds and the
conclusions hold for the resulting table. -/
theorem cancelledBooking_inert_witness :
    cancelBooking
        [{ id := "b1", bookingUserId := "u", organizationId := "o",
           startTime := 10, stopTime := 20, status := "confirmed",
           googleEventId := none, cancellationReason := none }] "b1" none =
      .ok
        [{ id := "b1", bookingUserId := "u", organizationId := "o",
           startTime := 10, stopTime := 20, status := "cancelled",
           googleEventId := none, cancellationReason := none }] ∧
      ∀ googleBusy userId s e,
        isSlotAvailable
            [{ id := "b1", bookingUserId := "u", organizationId := "o",
               startTime := 10, stopTime := 20, status := "cancelled",
               googleEventId := none, cancellationReason := none }]
            googleBusy userId s e =
          isSlotAvailable
            ([{ id := "b1", bookingUserId := "u", organizationId := "o",
                startTime := 10, stopTime := 20, status := "confirmed",
                googleEventId := none,
                cancellationReason := none }].filter fun b => ! (b.id == "b1"))
            googleBusy userId s e :=
  ⟨rfl,
    (cancelledBooking_inert
        [{ id := "b1", bookingUserId := "u", organizationId := "o",
           startTime := 10, stopTime := 20, status := "confirmed",
           googleEventId := none, cancellationReason := none }] "b1" none
        [{ id := "b1", bookingUserId := "u", organizationId := "o",
           startTime := 10, stopTime := 20, status := "cancelled",
           googleEventId := none, cancellationReason := none }] rfl).2.2.1⟩

/-! ### C4: per-chunk failures degrade to empty busy lists -/

/-- Every element of a list lies in one of its 50-chunks. -/
theorem mem_chunks50 {α : Type} (l : List α) :
    ∀ x ∈ l, ∃ batch ∈ chunks50 l, x ∈ batch := by
  induction l using chunks50.induct with
  | case1 l hl =>
    intro x hx
    rw [List.length_eq_zero] at hl
    subst hl
    simp at hx
  | case2 l hl ih =>
    intro x hx
    rw [chunks50, dif_neg hl]
    rw [← List.take_append_drop 50 l, List.mem_append] at hx
    rcases hx with hx | hx
    · exact ⟨l.take 50, List.mem_cons_self _ _, hx⟩
    · obtain ⟨batch, hb, hxb⟩ := ih x hx
      exact ⟨batch, List.mem_cons_of_mem _ hb, hxb⟩

/-- C4: the batched free/busy query is total — every requested person gets an
entry in the returned map — and when the provider call for a chunk fails,
every person of that chunk is mapped to the empty busy-interval list instead
of the error propagating. -/
theorem batchFreeBusy_failOpen
    (query : List (String × String) → Except Unit FBResponse)
    (userCalendarMap : List (String × String)) :
    (∀ p ∈ userCalendarMap,
      ∃ v, (p.1, v) ∈ batchQueryFreeBusy query userCalendarMap) ∧
      (∀ batch ∈ chunks50 userCalendarMap, query batch = .error () →
        ∀ p ∈ batch,
          (p.1, ([] : List Ivl)) ∈ batchQueryFreeBusy query userCalendarMap) := by
  constructor
  · intro p hp
    obtain ⟨batch, hb, hpb⟩ := mem_chunks50 userCalendarMap p hp
    cases hq : query batch with
    | error u =>
      refine ⟨[], List.mem_flatMap.mpr ⟨batch, hb, ?_⟩⟩
      simp only [hq]
      exact List.mem_map.mpr ⟨p, hpb, rfl⟩
    | ok calendars =>
      cases hcal : calendars.find? fun c => c.1 == p.2 with
      | none =>
        refine ⟨[], List.mem_flatMap.mpr ⟨batch, hb, ?_⟩⟩
        simp only [hq]
        refine List.mem_map.mpr ⟨p, hpb, ?_⟩
        simp only [hcal]
      | some c =>
        refine ⟨(c.2.filter fun per => per.startP.isSome && per.stopP.isSome).map
            fun per => ⟨per.startP.getD 0, per.stopP.getD 0⟩,
          List.mem_flatMap.mpr ⟨batch, hb, ?_⟩⟩
        simp only [hq]
        refine List.mem_map.mpr ⟨p, hpb, ?_⟩
        simp only [hcal]
  · intro batch hb hq p hpb
    refine List.mem_flatMap.mpr ⟨batch, hb, ?_⟩
    simp only [hq]
    exact List.mem_map.mpr ⟨p, hpb, rfl⟩

/-- Witness for C4: a single-entry map whose provider call always fails still
yields a map, with the person bound to the empty busy list. -/
theorem batchFreeBusy_failOpen_witness :
    ([("u", "cal")] ∈ chunks50 [(("u", "cal") : String × String)] ∧
        (fun _ : List (String × String) => (.error () : Except Unit FBResponse))
            [("u", "cal")] = .error () ∧
        ("u", "cal") ∈ [(("u", "cal") : String × String)]) ∧
      (("u", ([] : List Ivl)) ∈
        batchQueryFreeBusy (fun _ => .error ()) [("u", "cal")]) :=
  ⟨⟨by rw [chunks50, dif_neg (by decide), chunks50, dif_pos (by decide)]; decide,
      rfl, by decide⟩,
    (batchFreeBusy_failOpen (fun _ => .error ()) [("u", "cal")]).2
      [("u", "cal")]
      (by rw [chunks50, dif_neg (by decide), chunks50, dif_pos (by decide)]; decide)
      rfl ("u", "cal") (by decide)⟩

/-! ### C5: rule lookup uses the process-local day of week, not UTC -/

/-- C5 (divergence demonstration): the instant 1970-01-05T23:30Z has UTC day
of week 1 (Monday). With the process timezone at UTC (offset 0) the Monday
rule fires and produces its slot, but with the process timezone at UTC+1
(offset 3600000, where the same instant is a local Tuesday) the walk looks up
`getDay()` = 2 and generates nothing — contradicting the spec's "all slot
math is defined in UTC", the source's own "All times are handled in UTC"
comment, and the sibling getAvailableDays which uses `getUTCDay()`. -/
theorem slotGeneration_usesLocalDayOfWeek :
    dayOfWeek 430200000 0 = 1 ∧
      generateSlotsFromRules
          [{ bookingUserId := "u", dayOfWeek := 1, startTime := ⟨10, 0⟩,
             endTime := ⟨10, 30⟩, isActive := true }]
          430200000 430200000 30 0 0 = [⟨381600000, 383400000⟩] ∧
      generateSlotsFromRules
          [{ bookingUserId := "u", dayOfWeek := 1, startTime := ⟨10, 0⟩,
             endTime := ⟨10, 30⟩, isActive := true }]
          430200000 430200000 30 0 3600000 = [] := by
  refine ⟨by decide, ?_, ?_⟩
  · rw [generateSlotsFromRules, dif_pos (by norm_num)]
    rw [generateSlotsFromRules, dif_neg (by norm_num [msPerDay])]
    rw [show (List.filter (fun r => r.dayOfWeek == dayOfWeek 430200000 0)
        [({ bookingUserId := "u", dayOfWeek := 1, startTime := ⟨10, 0⟩,
            endTime := ⟨10, 30⟩, isActive := true } : ARule)]) =
      [({ bookingUserId := "u", dayOfWeek := 1, startTime := ⟨10, 0⟩,
          endTime := ⟨10, 30⟩, isActive := true } : ARule)] from by decide]
    simp only [List.flatMap_cons, List.flatMap_nil, List.append_nil]
    rw [show generateSlotsForDay 430200000
          ({ bookingUserId := "u", dayOfWeek := 1, startTime := ⟨10, 0⟩,
             endTime := ⟨10, 30⟩, isActive := true } : ARule).startTime
          ({ bookingUserId := "u", dayOfWeek := 1, startTime := ⟨10, 0⟩,
             endTime := ⟨10, 30⟩, isActive := true } : ARule).endTime 30 0
        = genLoop 381600000 383400000 1800000 0 from by
      rw [generateSlotsForDay]
      rw [show utcMidnight 430200000 = 345600000 from by decide]
      norm_num [HM.toMs, HM.toMinutes]]
    rw [genLoop, dif_pos (by norm_num), if_pos (by norm_num)]
    rw [genLoop, dif_neg (by norm_num)]
    simp
  · rw [generateSlotsFromRules, dif_pos (by norm_num)]
    rw [generateSlotsFromRules, dif_neg (by norm_num [msPerDay])]
    rw [show (List.filter (fun r => r.dayOfWeek == dayOfWeek 430200000 3600000)
        [({ bookingUserId := "u", dayOfWeek := 1, startTime := ⟨10, 0⟩,
            endTime := ⟨10, 30⟩, isActive := true } : ARule)]) = [] from by decide]
    simp

/-! ### C7: the day-level availability heuristic -/

/-- Membership in the candidate-date walk: a (date, day-of-week) pair is a
candidate iff it is realized by some walked instant `start + n` days that
lies in the range, has a rule for its UTC day of week, and is not before
`now`. -/
theorem mem_candidateDates {currentDate endDate now : Int} {dows : List Int}
    {p : Int × Int} :
    p ∈ candidateDates currentDate endDate now dows ↔
      ∃ n : ℕ, currentDate + (n : ℤ) * msPerDay ≤ endDate ∧
        dayOfWeek (currentDate + (n : ℤ) * msPerDay) 0 ∈ dows ∧
        now ≤ currentDate + (n : ℤ) * msPerDay ∧
        p = (epochDay (currentDate + (n : ℤ) * msPerDay),
          dayOfWeek (currentDate + (n : ℤ) * msPerDay) 0) := by
  induction currentDate, endDate, now, dows using candidateDates.induct with
  | case1 cur endD now dows h ih =>
    rw [candidateDates, dif_pos h]
    simp only [List.mem_append, ih]
    constructor
    · rintro (hmem | ⟨n, h1, h2, h3, h4⟩)
      · by_cases hc : (dows.contains (dayOfWeek cur 0) && decide (now ≤ cur)) = true
        · rw [if_pos hc] at hmem
          simp only [List.mem_singleton] at hmem
          simp only [Bool.and_eq_true, decide_eq_true_eq] at hc
          refine ⟨0, ?_, ?_, ?_, ?_⟩
          · simpa using h
          · simpa using List.elem_iff.mp hc.1
          · simpa using hc.2
          · simpa using hmem
        · rw [if_neg hc] at hmem
          simp at hmem
      · have harith : cur + msPerDay + (n : ℤ) * msPerDay =
            cur + ((n : ℤ) + 1) * msPerDay := by ring
        rw [harith] at h1 h2 h3 h4
        refine ⟨n + 1, ?_, ?_, ?_, ?_⟩
        · push_cast
          exact h1
        · push_cast
          exact h2
        · push_cast
          exact h3
        · push_cast
          exact h4
    · rintro ⟨n, h1, h2, h3, h4⟩
      cases n with
      | zero =>
        left
        simp only [Nat.cast_zero, zero_mul, add_zero] at h1 h2 h3 h4
        have hcond : (dows.contains (dayOfWeek cur 0) && decide (now ≤ cur)) = true := by
          simp only [Bool.and_eq_true, decide_eq_true_eq]
          exact ⟨List.elem_iff.mpr h2, h3⟩
        rw [if_pos hcond]
        simp [h4]
      | succ n =>
        right
        have harith : cur + ((n : ℤ) + 1) * msPerDay =
            cur + msPerDay + (n : ℤ) * msPerDay := by ring
        push_cast at h1 h2 h3 h4
        rw [harith] at h1 h2 h3 h4
        exact ⟨n, h1, h2, h3, h4⟩
  | case2 cur endD now dows h =>
    rw [candidateDates, dif_neg h]
    simp only [List.not_mem_nil, false_iff]
    rintro ⟨n, h1, -, -, -⟩
    simp only [msPerDay] at h1
    omega

/-- C7 (amended): getAvailableDays marks a date available iff some walked
instant of the range realizes it with: a rule of an active user for its UTC
day of week, the instant not before `now`, and at least one user whose count
of confirmed bookings starting on that date AND overlapping the queried
window (the window restriction is what the original claim misses) is strictly
below that user's theoretical slot capacity for the day of week; the returned
list is sorted and duplicate-free. -/
theorem getAvailableDays_spec (userIds : List String) (rulesDb : List ARule)
    (bookingsDb : List Booking) (startDate endDate duration now : Int) :
    (∀ day : Int,
      day ∈ getAvailableDays userIds rulesDb bookingsDb startDate endDate
          duration now ↔
        ∃ n : ℕ, startDate + (n : ℤ) * msPerDay ≤ endDate ∧
          epochDay (startDate + (n : ℤ) * msPerDay) = day ∧
          now ≤ startDate + (n : ℤ) * msPerDay ∧
          dayOfWeek (startDate + (n : ℤ) * msPerDay) 0 ∈
            (activeRules userIds rulesDb).map (·.dayOfWeek) ∧
          ∃ uid ∈ userIds,
            (dateBookingCount bookingsDb userIds startDate endDate uid day : ℤ) <
              potentialSlotCount
                ((activeRules userIds rulesDb).filter fun r => r.bookingUserId == uid)
                (dayOfWeek (startDate + (n : ℤ) * msPerDay) 0) duration) ∧
      List.Sorted (· ≤ ·)
        (getAvailableDays userIds rulesDb bookingsDb startDate endDate duration now) ∧
      (getAvailableDays userIds rulesDb bookingsDb startDate endDate duration now).Nodup := by
  refine ⟨?_, ?_, ?_⟩
  · intro day
    unfold getAvailableDays
    by_cases hempty : (activeRules userIds rulesDb).isEmpty
    · rw [if_pos hempty]
      simp only [List.not_mem_nil, false_iff]
      rintro ⟨n, -, -, -, hdow, -⟩
      rw [List.isEmpty_iff] at hempty
      rw [hempty] at hdow
      simp at hdow
    · rw [if_neg hempty, List.mem_mergeSort, List.mem_dedup, List.mem_map]
      constructor
      · rintro ⟨c, hc, hc1⟩
        rw [markedDates, List.mem_filter] at hc
        obtain ⟨hcand, hpred⟩ := hc
        rw [mem_candidateDates] at hcand
        obtain ⟨n, h1, h2, h3, h4⟩ := hcand
        subst h4
        simp only [List.any_eq_true, Bool.and_eq_true, decide_eq_true_eq] at hpred
        obtain ⟨uid, huid, -, hlt⟩ := hpred
        simp only at hc1 hlt
        refine ⟨n, h1, hc1, h3, h2, uid, huid, ?_⟩
        rw [← hc1]
        exact hlt
      · rintro ⟨n, h1, h2, h3, hdow, uid, huid, hlt⟩
        refine ⟨(epochDay (startDate + (n : ℤ) * msPerDay),
          dayOfWeek (startDate + (n : ℤ) * msPerDay) 0), ?_, h2⟩
        rw [markedDates, List.mem_filter]
        refine ⟨?_, ?_⟩
        · rw [mem_candidateDates]
          exact ⟨n, h1, hdow, h3, rfl⟩
        · simp only [List.any_eq_true, Bool.and_eq_true, decide_eq_true_eq]
          refine ⟨uid, huid, ?_, ?_⟩
          · simp only [Bool.not_eq_true', beq_eq_false_iff_ne, ne_eq]
            intro hp0
            rw [hp0] at hlt
            omega
          · rw [h2]
            exact hlt
  · unfold getAvailableDays
    by_cases hempty : (activeRules userIds rulesDb).isEmpty
    · rw [if_pos hempty]
      exact List.sorted_nil
    · rw [if_neg hempty]
      have hpair := @List.sorted_mergeSort Int
        (fun a b : Int => decide (a ≤ b))
        (fun a b c hab hbc => by
          simp only [decide_eq_true_eq] at hab hbc ⊢
          omega)
        (fun a b => by
          simp only [Bool.or_eq_true, decide_eq_true_eq]
          omega)
        ((markedDates userIds rulesDb bookingsDb startDate endDate duration now).map
          (·.1)).dedup
      exact hpair.imp fun h => by simpa using h
  · unfold getAvailableDays
    by_cases hempty : (activeRules userIds rulesDb).isEmpty
    · rw [if_pos hempty]
      exact List.nodup_nil
    · rw [if_neg hempty]
      exact (List.mergeSort_perm _ _).nodup_iff.mpr (List.nodup_dedup _)

/-- Witness for C7 (amended): the iff instantiated at an organization with no
users, where both sides are false for day 5. -/
theorem getAvailableDays_spec_witness :
    (5 : Int) ∈ getAvailableDays [] [] [] 0 0 30 0 ↔
      ∃ n : ℕ, (0 : ℤ) + (n : ℤ) * msPerDay ≤ 0 ∧
        epochDay ((0 : ℤ) + (n : ℤ) * msPerDay) = 5 ∧
        (0 : ℤ) ≤ (0 : ℤ) + (n : ℤ) * msPerDay ∧
        dayOfWeek ((0 : ℤ) + (n : ℤ) * msPerDay) 0 ∈
          (activeRules [] []).map (·.dayOfWeek) ∧
        ∃ uid ∈ ([] : List String),
          (dateBookingCount [] [] 0 0 uid 5 : ℤ) <
            potentialSlotCount
              ((activeRules [] []).filter fun r => r.bookingUserId == uid)
              (dayOfWeek ((0 : ℤ) + (n : ℤ) * msPerDay) 0) 30 :=
  (getAvailableDays_spec [] [] [] 0 0 30 0).1 5

/-- The booking count named by claim C7, following the claim's words: ALL
confirmed bookings of the person starting on the date, with no restriction to
the queried window. Second definition for comparison with the source-derived
`dateBookingCount`. -/
def claimBookingCount (bookingsDb : List Booking) (userId : String)
    (day : Int) : Nat :=
  (bookingsDb.filter fun b =>
    b.bookingUserId == userId && b.status == "confirmed"
      && epochDay b.startTime == day).length

/-- Date availability as claim C7 states it: a candidate date (rule for its
UTC day of week, not in the past) is available iff for at least one person the
count of that person's confirmed bookings starting on that date is strictly
below the person's theoretical slot capacity for the day of week. -/
def claimDateAvailable (userIds : List String) (rulesDb : List ARule)
    (bookingsDb : List Booking) (startDate endDate duration now : Int)
    (day : Int) : Prop :=
  (∃ n : ℕ, startDate + (n : ℤ) * msPerDay ≤ endDate ∧
    epochDay (startDate + (n : ℤ) * msPerDay) = day ∧
    now ≤ startDate + (n : ℤ) * msPerDay ∧
    dayOfWeek (startDate + (n : ℤ) * msPerDay) 0 ∈
      (activeRules userIds rulesDb).map (·.dayOfWeek)) ∧
  ∃ uid ∈ userIds,
    (claimBookingCount bookingsDb uid day : ℤ) <
      potentialSlotCount
        ((activeRules userIds rulesDb).filter fun r => r.bookingUserId == uid)
        ((day + 4).emod 7) duration

/-- Counterexample input for C7: user `u` with a Monday 00:00-01:00 rule. -/
def cexRule : ARule := ⟨"u", 1, ⟨0, 0⟩, ⟨1, 0⟩, true⟩

/-- Counterexample input for C7: two confirmed bookings that fill the Monday
1970-01-05 rule window entirely but end before the queried window starts. -/
def cexBookings : List Booking :=
  [⟨"b1", "u", "o", 345600000, 347400000, "confirmed", none, none⟩,
   ⟨"b2", "u", "o", 347400000, 349200000, "confirmed", none, none⟩]

/-- Counterexample for C7 as stated: querying the window consisting of the
single instant 1970-01-05T12:00Z (day 4, a Monday), the code returns day 4 as
available — the two bookings exhausting the user's capacity end before the
window start and are not counted — while the claim's predicate (counting all
confirmed bookings starting on that date) says the day is not available. -/
theorem getAvailableDays_count_ignores_window :
    (4 : Int) ∈ getAvailableDays ["u"] [cexRule] cexBookings
        388800000 388800000 30 0 ∧
      ¬ claimDateAvailable ["u"] [cexRule] cexBookings
        388800000 388800000 30 0 4 := by
  constructor
  · have hcand : candidateDates 388800000 388800000 0
        ((activeRules ["u"] [cexRule]).map (·.dayOfWeek)) = [(4, 1)] := by
      rw [show ((activeRules ["u"] [cexRule]).map (·.dayOfWeek)) = [1] from by decide]
      rw [candidateDates, dif_pos (by norm_num)]
      rw [candidateDates, dif_neg (by norm_num [msPerDay])]
      decide
    unfold getAvailableDays markedDates
    rw [if_neg (by decide), hcand, List.mem_mergeSort]
    decide
  · rintro ⟨-, uid, huid, hlt⟩
    have huu : uid = "u" := by simpa using huid
    subst huu
    revert hlt
    decide

end Shady
